import Mathlib

/-!
Verification of the tortoise beacon module of go-spacemesh (tortoisebeacon
package). The development shallowly embeds the relevant functions:

* the two coexisting versions of the top-level file are both modelled where a
  claim refers to them: the newer `tortoise_beacon.go` (string proposals,
  `GetBeacon` with a retry loop on the previous epoch) and the older
  `tortoisebeacon.go` (`GetBeacon` returning a mock value before any waiting);
* proposal identifiers are Go strings compared byte-wise; they are embedded as
  byte lists (`List Nat`) with the lexicographic order, which coincides with
  Go's `strings.Compare`;
* machine `uint64` arithmetic (epoch ids) is embedded as `Nat` with explicit
  reduction modulo `2 ^ 64` where wrap-around matters;
* the vote-calculation and vote-codec files of the package are not part of the
  sources available here (only their tests and callers are); those functions
  are modelled from the specification and are marked as such in their doc
  comments.
-/

namespace TortoiseBeacon

/-- Proposal identifier: the bytes of the Go string naming the proposal
(hex-encoded signature treated as an opaque identity). -/
abbrev Proposal := List Nat

/-- A 32-byte digest, as its list of byte values. -/
abbrev Hash32 := List Nat

/-- The all-zero 32-byte hash; `types.HexToHash32 "0x00"` and the zero value
of `types.Hash32` both denote it. -/
def zeroHash32 : Hash32 := List.replicate 32 0

/-- Modulus of Go `uint64` arithmetic. -/
def U64 : Nat := 2 ^ 64

/-- Wrap-around subtraction of Go `uint64` values: `a - b` over `uint64`
for `a, b < 2 ^ 64`. -/
def sub64 (a b : Nat) : Nat := (a + U64 - b) % U64

/-- The constant `cleanupEpochs` (both versions of the source). -/
def cleanupEpochs : Nat := 1000

/-- Embeds `epochIsOutdated` from `tortoise_beacon.go` (the version in
`tortoisebeacon.go` computes the same expression with the current epoch taken
from the last layer): `currentEpoch - epoch > cleanupEpochs` over `uint64`. -/
def epochIsOutdated (currentEpoch epoch : Nat) : Bool :=
  cleanupEpochs < sub64 currentEpoch epoch

/-- Embeds `cleanup`: delete from the beacons map every stored epoch that
`epochIsOutdated` classifies as outdated (the map is modelled as its list of
entries). -/
def cleanup (beacons : List (Nat × Hash32)) (currentEpoch : Nat) : List (Nat × Hash32) :=
  beacons.filter (fun e => ¬ epochIsOutdated currentEpoch e.1)

/-- Embeds `types.EpochID.IsGenesis` (the `types` package is not among the
sources here; modelled from the spec: the genesis epochs are the first `G`
epoch ids, the loop in `initGenesisBeacons` iterating exactly over them). -/
def isGenesis (G e : Nat) : Bool := e < G

/-- Embeds the old `GetBeacon` of `tortoisebeacon.go`: it unconditionally
returns a 32-byte mock value holding the epoch id in little-endian in its
first eight bytes; everything after this `return` (waiting for readiness and
the real lookup) is dead code. -/
def getBeaconOldMock (epochNumber : Nat) : List Nat :=
  ((List.range 8).map (fun i => epochNumber / 2 ^ (8 * i) % 256)) ++ List.replicate 24 0

/-- Embeds `beaconCalcTimeout` of `tortoisebeacon.go`:
`4 * RoundsNumber * roundDuration` (the Go source computes it through
`float64`, exact for the realistic magnitudes modelled here). -/
def beaconCalcTimeout (roundsNumber roundDuration : Nat) : Nat :=
  4 * roundsNumber * roundDuration

/-- Which control path the new `GetBeacon` of `tortoise_beacon.go` took. -/
inductive GetBeaconPath
  | dbHit
  | genesisFast
  | retryLoop
deriving DecidableEq

/-- Observable outcome of the new `GetBeacon`: the returned bytes, the
returned error, the control path taken, and the write-back into the beacon
database when one is configured. -/
structure GetBeaconOut where
  value : Hash32
  error : Option String
  path : GetBeaconPath
  dbWrite : Option (Nat × Hash32)
deriving DecidableEq

/-- Embeds `GetBeacon` of `tortoise_beacon.go`. The database lookup comes
first; then the genesis fast path tests `(epochID - 1).IsGenesis()` over
`uint64` subtraction; otherwise the function retries reading
`beacons[epochID - 1]` fifty times under the read lock (the map cannot change
in this sequential model, so the retries reduce to one lookup), leaves the
local `beacon` variable at the zero `Hash32` when the entry is absent, writes
the result into the database when one is configured, and returns it with a
nil error — the `ErrBeaconNotCalculated` return is commented out in the
source. The database write is modelled as succeeding. -/
def getBeacon (G : Nat) (db : Option (Nat → Option Hash32))
    (beacons : Nat → Option Hash32) (epochID : Nat) : GetBeaconOut :=
  match db.bind (fun d => d epochID) with
  | some val => ⟨val, none, .dbHit, none⟩
  | none =>
    if isGenesis G (sub64 epochID 1) then
      ⟨zeroHash32, none, .genesisFast, none⟩
    else
      let beacon := (beacons (sub64 epochID 1)).getD zeroHash32
      ⟨beacon, none, .retryLoop, if db.isSome then some (epochID, beacon) else none⟩

/-- Embeds `initGenesisBeacons` of `tortoise_beacon.go`: the beacons map is
seeded with the genesis beacon for every genesis epoch. This version of the
file has no readiness registry at all: the closed channel it builds is
discarded, so nothing is ever marked ready. -/
def initGenesisBeacons (G : Nat) : Nat → Option Hash32 :=
  fun e => if e < G then some zeroHash32 else none

/-- Observable outcome of `handleEpoch` of `tortoise_beacon.go`: which of the
three phases ran, and the error on which the proposal phase aborted, if any. -/
structure HandleEpochTrace where
  proposalRan : Bool
  consensusRan : Bool
  beaconCalcRan : Bool
  proposalError : Option String
deriving DecidableEq

/-- Embeds the control flow of `runProposalPhase` of `tortoise_beacon.go` up
to the epoch-weight lookup: the proposal signature is computed first, then
`atxDB.GetEpochWeight`; either failure is wrapped and returned, aborting the
phase before the eligibility test. The rest of the phase is abstracted as a
continuation of the obtained weight. -/
def runProposalPhase (sigResult : Except String (List Nat))
    (weightResult : Except String Nat)
    (rest : Nat → Except String Unit) : Except String Unit :=
  match sigResult with
  | .error e => .error ("calculate signed proposal: " ++ e)
  | .ok _ =>
    match weightResult with
    | .error e => .error ("get epoch weight: " ++ e)
    | .ok w => rest w

/-- Embeds the control flow of `handleEpoch` of `tortoise_beacon.go`: genesis
epochs are skipped; when the proposal phase returns an error it is logged and
the function returns — neither the consensus phase nor the beacon calculation
runs for that epoch. -/
def handleEpoch (G epoch : Nat) (proposalResult : Except String Unit) : HandleEpochTrace :=
  if isGenesis G epoch then
    ⟨false, false, false, none⟩
  else
    match proposalResult with
    | .error e => ⟨true, false, false, some e⟩
    | .ok _ => ⟨true, true, true, none⟩

/-- Embeds the effect of `handleEpoch` on the beacons registry: a beacon is
recorded (by `calcBeacon`) only when both earlier phases were reached. -/
def handleEpochBeacons (G epoch : Nat) (proposalResult : Except String Unit)
    (calcResult : Option Hash32) (beacons : Nat → Option Hash32) :
    Nat → Option Hash32 :=
  if isGenesis G epoch then beacons
  else
    match proposalResult with
    | .error _ => beacons
    | .ok _ =>
      match calcResult with
      | some b => fun e => if e = epoch then some b else beacons e
      | none => beacons

/-- Running vote-margin map of an epoch (embeds `votesMarginMap`,
`map[proposal]int`), as its list of entries in insertion order. -/
abbrev VotesMargin := List (Proposal × Int)

/-- Reads the margin map at a proposal; 0 when the key is absent, as a Go map
read yields the zero value. -/
def marginGet (m : VotesMargin) (p : Proposal) : Int :=
  match m with
  | [] => 0
  | (q, v) :: rest => if q = p then v else marginGet rest p

/-- Embeds the Go map update `margin[p] += d`. -/
def marginAdd (m : VotesMargin) (p : Proposal) (d : Int) : VotesMargin :=
  match m with
  | [] => [(p, d)]
  | (q, v) :: rest =>
    if q = p then (q, v + d) :: rest else (q, v) :: marginAdd rest p d

/-- One voter's pair of vote sets for a round (embeds `votesSetPair` for the
tally; the Go map sets are modelled as duplicate-free lists). -/
structure VoterVotes where
  valid : List Proposal
  invalid : List Proposal

/-- Modelled from the spec (the file defining the vote tally is not among the
sources here, only its tests are): tallying one first-round vote of weight
`w` adds `w` to the margin of every proposal in the voter's `ValidVotes` and
subtracts `w` for every proposal in the voter's `InvalidVotes`. -/
def applyFirstRoundVote (w : Int) (v : VoterVotes) (m : VotesMargin) : VotesMargin :=
  v.invalid.foldl (fun m p => marginAdd m p (-w))
    (v.valid.foldl (fun m p => marginAdd m p w) m)

/-- Modelled from the spec: `firstRoundVotes` builds the margin map of an
epoch by tallying every received first-round vote with its voter's weight
(`voteWeight` in `tortoise_beacon.go` returns 1 for every voter). -/
def firstRoundVotes (voters : List (Int × VoterVotes)) : VotesMargin :=
  voters.foldl (fun m wv => applyFirstRoundVote wv.1 wv.2 m) []

/-- The proposal written "0x1" in the tests and scenarios, as ASCII bytes. -/
def p1 : Proposal := [48, 120, 49]

/-- The proposal written "0x2". -/
def p2 : Proposal := [48, 120, 50]

/-- The proposal written "0x3". -/
def p3 : Proposal := [48, 120, 51]

/-- The proposal written "0x4". -/
def p4 : Proposal := [48, 120, 52]

/-- The proposal written "0x5". -/
def p5 : Proposal := [48, 120, 53]

/-- The proposal written "0x6". -/
def p6 : Proposal := [48, 120, 54]

/-- The two first-round voters of scenario S4, both with weight 1:
pk1 votes for 0x1, 0x2 and against 0x3, 0x5, 0x6; pk2 votes for 0x1, 0x4,
0x5 and against 0x6. -/
def s4Voters : List (Int × VoterVotes) :=
  [(1, ⟨[p1, p2], [p3, p5, p6]⟩), (1, ⟨[p1, p4, p5], [p6]⟩)]

/-- A pair of own vote sets (embeds `votesSetPair`, two Go map sets). -/
structure VotesSetPair where
  ValidVotes : Finset Proposal
  InvalidVotes : Finset Proposal
deriving DecidableEq

/-- Modelled from the spec: `calcOwnCurrentRoundVotes` walks the margin map
and places each proposal whose margin exceeds the voting threshold into the
own valid votes, each proposal whose margin is below the negated threshold
into the own invalid votes, and resolves every remaining (undecided)
proposal by the weak coin — valid when the coin is true, invalid when it is
false. -/
def calcOwnCurrentRoundVotes (threshold : Int) (coin : Bool)
    (margin : VotesMargin) : VotesSetPair :=
  margin.foldl
    (fun acc pm =>
      if threshold < pm.2 then ⟨insert pm.1 acc.ValidVotes, acc.InvalidVotes⟩
      else if pm.2 < -threshold then ⟨acc.ValidVotes, insert pm.1 acc.InvalidVotes⟩
      else if coin then ⟨insert pm.1 acc.ValidVotes, acc.InvalidVotes⟩
      else ⟨acc.ValidVotes, insert pm.1 acc.InvalidVotes⟩)
    ⟨∅, ∅⟩

/-- Value of one little-endian 64-bit word of the bit-vector, built from up
to 64 bits ordered least significant first. -/
def wordOfBits (bits : List Bool) : Nat :=
  bits.foldr (fun b acc => (if b then 1 else 0) + 2 * acc) 0

/-- Packs a bit list into consecutive 64-bit words (fuel recursion on the
number of remaining bits). -/
def packBitsAux : Nat → List Bool → List Nat
  | _, [] => []
  | 0, _ => []
  | fuel + 1, bits => wordOfBits (bits.take 64) :: packBitsAux fuel (bits.drop 64)

/-- Packs a list of bits into the little-endian `uint64` bit-vector. -/
def packBits (bits : List Bool) : List Nat := packBitsAux bits.length bits

/-- Reads bit `i` of a little-endian `uint64` bit-vector. -/
def bitAt (bv : List Nat) (i : Nat) : Bool :=
  Nat.testBit (bv.getD (i / 64) 0) (i % 64)

/-- First-round lists of a voter (embeds the `proposals` pair used by the
codec tests: valid proposals ordered before potentially-valid ones). -/
structure ProposalsPair where
  ValidProposals : List Proposal
  PotentiallyValidProposals : List Proposal

/-- The combined first-round list L that bit positions refer to: valids
before potentially-valids. -/
def firstRoundList (fr : ProposalsPair) : List Proposal :=
  fr.ValidProposals ++ fr.PotentiallyValidProposals

/-- Modelled from the spec (the vote codec file is not among the sources
here, only its tests are): `encodeVotes` sets bit i of the little-endian
bit-vector to 1 iff the i-th entry of the voter's first-round list is in the
current `ValidVotes`. -/
def encodeVotes (v : VotesSetPair) (fr : ProposalsPair) : List Nat :=
  packBits ((firstRoundList fr).map (fun p => decide (p ∈ v.ValidVotes)))

/-- Walks the first-round list carrying the bit index, classifying each
proposal by its bit: 1 into `ValidVotes`, 0 into `InvalidVotes`. -/
def classifyVotes (bv : List Nat) : List Proposal → Nat → VotesSetPair
  | [], _ => ⟨∅, ∅⟩
  | p :: rest, i =>
    if bitAt bv i then
      ⟨insert p (classifyVotes bv rest (i + 1)).ValidVotes,
       (classifyVotes bv rest (i + 1)).InvalidVotes⟩
    else
      ⟨(classifyVotes bv rest (i + 1)).ValidVotes,
       insert p (classifyVotes bv rest (i + 1)).InvalidVotes⟩

/-- Modelled from the spec: `decodeVotes` reconstructs the vote set pair from
the bit-vector against the voter's first-round lists. -/
def decodeVotes (bv : List Nat) (fr : ProposalsPair) : VotesSetPair :=
  classifyVotes bv (firstRoundList fr) 0

/-- Modulus of 32-bit word arithmetic inside SHA-256. -/
def M32 : Nat := 4294967296

/-- 32-bit modular addition. -/
def add32 (a b : Nat) : Nat := (a + b) % M32

/-- 32-bit right rotation. -/
def rotr32 (x n : Nat) : Nat := ((x >>> n) ||| (x <<< (32 - n))) % M32

/-- SHA-256 choice function (not-x written as xor with the 32-bit mask). -/
def shaCh (x y z : Nat) : Nat := (x &&& y) ^^^ ((x ^^^ 4294967295) &&& z)

/-- SHA-256 majority function. -/
def shaMaj (x y z : Nat) : Nat := ((x &&& y) ^^^ (x &&& z)) ^^^ (y &&& z)

/-- SHA-256 small sigma 0. -/
def shaS0 (x : Nat) : Nat := (rotr32 x 7 ^^^ rotr32 x 18) ^^^ (x >>> 3)

/-- SHA-256 small sigma 1. -/
def shaS1 (x : Nat) : Nat := (rotr32 x 17 ^^^ rotr32 x 19) ^^^ (x >>> 10)

/-- SHA-256 big sigma 0. -/
def shaB0 (x : Nat) : Nat := (rotr32 x 2 ^^^ rotr32 x 13) ^^^ rotr32 x 22

/-- SHA-256 round constants. -/
def shaK : List Nat :=
  [1116352408, 1899447441, 3049323471, 3921009573, 961987163,
   1508970993, 2453635748, 2870763221, 3624381080, 310598401,
   607225278, 1426881987, 1925078388, 2162078206, 2614888103,
   3248222580, 3835390401, 4022224774, 264347078, 604807628,
   770255983, 1249150122, 1555081692, 1996064986, 2554220882,
   2821834349, 2952996808, 3210313671, 3336571891, 3584528711,
   113926993, 338241895, 666307205, 773529912, 1294757372,
   1396182291, 1695183700, 1986661051, 2177026350, 2456956037,
   2730485921, 2820302411, 3259730800, 3345764771, 3516065817,
   3600352804, 4094571909, 275423344, 430227734, 506948616,
   659060556, 883997877, 958139571, 1322822218, 1537002063,
   1747873779, 1955562222, 2024104815, 2227730452, 2361852424,
   2428436474, 2756734187, 3204031479, 3329325298]

/-- SHA-256 initial state. -/
def shaH0 : List Nat :=
  [1779033703, 3144134277, 1013904242, 2773480762, 1359893119,
   2600822924, 528734635, 1541459225]

/-- Big-endian 32-bit words from a byte list. -/
def wordsOfBytes : List Nat → List Nat
  | b0 :: b1 :: b2 :: b3 :: rest => (((b0 * 256 + b1) * 256 + b2) * 256 + b3) :: wordsOfBytes rest
  | _ => []

/-- Extends the 16 block words by the given number of scheduled words. -/
def extendWords : List Nat → Nat → List Nat
  | ws, 0 => ws
  | ws, n + 1 =>
    let prev := extendWords ws n
    prev ++ [add32 (add32 (shaS1 (prev.getD (prev.length - 2) 0)) (prev.getD (prev.length - 7) 0))
      (add32 (shaS0 (prev.getD (prev.length - 15) 0)) (prev.getD (prev.length - 16) 0))]

/-- One SHA-256 compression round on the eight-word state. -/
def compressStep (st : List Nat) (kw : Nat × Nat) : List Nat :=
  match st with
  | [a, b, c, d, e, f, g, h] =>
    let t1 := add32 h (add32 ((rotr32 e 6 ^^^ rotr32 e 11) ^^^ rotr32 e 25)
      (add32 (shaCh e f g) (add32 kw.1 kw.2)))
    let t2 := add32 (shaB0 a) (shaMaj a b c)
    [add32 t1 t2, a, b, c, add32 d t1, e, f, g]
  | other => other

/-- Compresses one 64-byte block into the running state. -/
def compressBlock (h : List Nat) (block : List Nat) : List Nat :=
  List.zipWith add32 h ((shaK.zip (extendWords (wordsOfBytes block) 48)).foldl compressStep h)

/-- Big-endian eight bytes of a 64-bit value. -/
def beBytes8 (n : Nat) : List Nat :=
  [n / 2 ^ 56 % 256, n / 2 ^ 48 % 256, n / 2 ^ 40 % 256, n / 2 ^ 32 % 256,
   n / 2 ^ 24 % 256, n / 2 ^ 16 % 256, n / 2 ^ 8 % 256, n % 256]

/-- SHA-256 message padding: a 0x80 byte, zeros up to 56 mod 64, then the
bit length in big-endian. -/
def shaPad (msg : List Nat) : List Nat :=
  msg ++ 128 :: (List.replicate ((119 - msg.length % 64) % 64) 0 ++ beBytes8 (8 * msg.length))

/-- Splits a byte list into 64-byte blocks (fuel recursion). -/
def chunk64 : Nat → List Nat → List (List Nat)
  | _, [] => []
  | 0, _ => []
  | f + 1, m => m.take 64 :: chunk64 f (m.drop 64)

/-- The SHA-256 digest of a byte list, as 32 bytes. -/
def sha256 (msg : List Nat) : List Nat :=
  ((chunk64 (shaPad msg).length (shaPad msg)).foldl compressBlock shaH0).foldr
    (fun w acc => [w / 2 ^ 24 % 256, w / 2 ^ 16 % 256, w / 2 ^ 8 % 256, w % 256] ++ acc) []

/-- Value of one ASCII hex digit (0 for other bytes, which do not occur in
well-formed proposal identifiers). -/
def hexDigitVal (c : Nat) : Nat :=
  if 48 ≤ c ∧ c ≤ 57 then c - 48
  else if 97 ≤ c ∧ c ≤ 102 then c - 87
  else if 65 ≤ c ∧ c ≤ 70 then c - 55
  else 0

/-- Drops a leading "0x" or "0X" from a hex string, as `util.FromHex`. -/
def stripHexTag : List Nat → List Nat
  | 48 :: 120 :: rest => rest
  | 48 :: 88 :: rest => rest
  | s => s

/-- Decodes consecutive pairs of hex digits into bytes. -/
def hexPairsToBytes : List Nat → List Nat
  | c1 :: c2 :: rest => (16 * hexDigitVal c1 + hexDigitVal c2) :: hexPairsToBytes rest
  | _ => []

/-- Embeds `util.FromHex`: strip the 0x tag, left-pad an odd-length string
with a 0 digit, decode hex pairs. -/
def fromHex (s : List Nat) : List Nat :=
  hexPairsToBytes (if (stripHexTag s).length % 2 = 1 then 48 :: stripHexTag s else stripHexTag s)

/-- Embeds `types.BytesToHash`: keep the last 32 bytes, right-aligned in a
32-byte value padded with leading zeros. -/
def bytesToHash32 (b : List Nat) : Hash32 :=
  List.replicate (32 - (b.drop (b.length - 32)).length) 0 ++ b.drop (b.length - 32)

/-- Embeds `types.HexToHash32` on proposal identifiers. -/
def hexToHash32 (s : Proposal) : Hash32 := bytesToHash32 (fromHex s)

/-- Modelled from the spec (the `Hash` method of the proposal list lives in a
utility file absent from the sources here): the beacon is the 32-byte digest
(SHA-256) of the concatenation of the hash-list entries in order, each entry
parsed as a 32-byte identifier. The S1 scenario pins this construction to
the expected digest. -/
def proposalListHash (l : List Proposal) : Hash32 :=
  sha256 (l.foldr (fun p acc => hexToHash32 p ++ acc) [])

/-- Embeds `calcTortoiseBeaconHashList` of `beacon_calc.go` on the path where
own votes for `(epoch, lastPossibleRound)` are stored: the keys of the
`ValidVotes` set are collected (in arbitrary Go map order) and sorted
ascending with `strings.Compare`, modelled by insertion sort over the
lexicographic byte order. On a missing entry the source recalculates votes
through the vote-calculation file absent from the sources; that path is left
unmodelled (`none`). -/
def calcTortoiseBeaconHashList (ownVotes : Nat × Nat → Option VotesSetPair)
    (epoch roundsNumber : Nat) : Option (List Proposal) :=
  match ownVotes (epoch, roundsNumber) with
  | some votes => some (votes.ValidVotes.sort (· ≤ ·))
  | none => none

/-- Embeds `calcBeacon` of `beacon_calc.go`: build the hash list, digest it,
and record the beacon for the epoch in the beacons registry. -/
def calcBeacon (ownVotes : Nat × Nat → Option VotesSetPair)
    (beacons : Nat → Option Hash32) (epoch roundsNumber : Nat) :
    Option (Nat → Option Hash32) :=
  match calcTortoiseBeaconHashList ownVotes epoch roundsNumber with
  | some hashes => some (fun e => if e = epoch then some (proposalListHash hashes) else beacons e)
  | none => none

/-- The S1 expected beacon
0xd04dd0faf9b5d3baf04dd99152971b5db67b0b3c79e5cc59f8f7b03ab20673f8, as its
32 bytes. -/
def s1Beacon : Hash32 :=
  [208, 77, 208, 250, 249, 181, 211, 186, 240, 77, 217, 145, 82, 151, 27, 93,
   182, 123, 11, 60, 121, 229, 204, 89, 248, 247, 176, 58, 178, 6, 115, 248]

/-- Own votes of the S1 scenario: at epoch 5, last round 3, valid votes
0x1, 0x2, 0x4, 0x5 and invalid votes 0x3, 0x6. -/
def s1OwnVotes : Nat × Nat → Option VotesSetPair :=
  fun k => if k = (5, 3) then some ⟨{p1, p2, p4, p5}, {p3, p6}⟩ else none

end TortoiseBeacon

namespace TortoiseBeacon

/-- Helper: reading after a single map update. -/
theorem marginGet_marginAdd (m : VotesMargin) (p : Proposal) (d : Int) (q : Proposal) :
    marginGet (marginAdd m p d) q = marginGet m q + (if p = q then d else 0) := by
  induction m with
  | nil =>
    by_cases h : p = q <;> simp [marginAdd, marginGet, h]
  | cons a rest ih =>
    obtain ⟨b, v⟩ := a
    by_cases hbp : b = p
    · subst hbp
      by_cases hbq : b = q <;> simp [marginAdd, marginGet, hbq]
    · by_cases hbq : b = q
      · subst hbq
        have hpb : p ≠ b := fun h => hbp h.symm
        simp [marginAdd, marginGet, hbp, hpb]
      · simp [marginAdd, marginGet, hbp, hbq, ih]

/-- Helper: reading after bumping every proposal of a duplicate-free list by
the same weight. -/
theorem marginGet_foldl_weight (w : Int) (l : List Proposal) (m : VotesMargin)
    (q : Proposal) (h : l.Nodup) :
    marginGet (l.foldl (fun m p => marginAdd m p w) m) q =
      marginGet m q + (if q ∈ l then w else 0) := by
  induction l generalizing m with
  | nil => simp
  | cons p rest ih =>
    have hnd := List.nodup_cons.mp h
    rw [List.foldl_cons, ih _ hnd.2, marginGet_marginAdd]
    by_cases hpq : p = q
    · subst hpq
      simp [hnd.1]
    · have hqp : q ≠ p := fun h => hpq h.symm
      by_cases hqr : q ∈ rest <;> simp [hqr, hqp, hpq]

/-- Helper: reading after tallying one voter's first-round vote. -/
theorem marginGet_applyFirstRoundVote (w : Int) (v : VoterVotes) (m : VotesMargin)
    (q : Proposal) (h1 : v.valid.Nodup) (h2 : v.invalid.Nodup) :
    marginGet (applyFirstRoundVote w v m) q =
      marginGet m q + (if q ∈ v.valid then w else 0)
        - (if q ∈ v.invalid then w else 0) := by
  rw [applyFirstRoundVote, marginGet_foldl_weight (-w) _ _ _ h2,
    marginGet_foldl_weight w _ _ _ h1]
  by_cases hv : q ∈ v.valid <;> by_cases hi : q ∈ v.invalid <;> simp [hv, hi] <;> omega

/-- Helper: the margin accumulated over a voter list, starting from any map. -/
theorem marginGet_firstRound_fold (voters : List (Int × VoterVotes))
    (m : VotesMargin) (q : Proposal)
    (hnd : ∀ wv ∈ voters, wv.2.valid.Nodup ∧ wv.2.invalid.Nodup) :
    marginGet (voters.foldl (fun m wv => applyFirstRoundVote wv.1 wv.2 m) m) q =
      marginGet m q + (voters.map (fun wv =>
        (if q ∈ wv.2.valid then wv.1 else 0)
          - (if q ∈ wv.2.invalid then wv.1 else 0))).sum := by
  induction voters generalizing m with
  | nil => simp
  | cons wv rest ih =>
    have hw := hnd wv (by simp)
    rw [List.foldl_cons, ih _ (fun x hx => hnd x (by simp [hx])),
      marginGet_applyFirstRoundVote wv.1 wv.2 m q hw.1 hw.2, List.map_cons, List.sum_cons]
    omega

/-- C3: after tallying every voter's first-round vote with the voter's
weight, the margin of each proposal equals the sum over voters of the weight
counted positively when the proposal is among the voter's valid votes and
negatively when it is among the invalid votes; at the two voters of S4 with
unit weights this yields margins 0x1: 2, 0x2: 1, 0x3: -1, 0x4: 1, 0x5: 0,
0x6: -2. -/
theorem firstRound_margin_is_signed_weighted_sum :
    (∀ (voters : List (Int × VoterVotes)) (q : Proposal),
      (∀ wv ∈ voters, wv.2.valid.Nodup ∧ wv.2.invalid.Nodup) →
      marginGet (firstRoundVotes voters) q =
        (voters.map (fun wv =>
          (if q ∈ wv.2.valid then wv.1 else 0)
            - (if q ∈ wv.2.invalid then wv.1 else 0))).sum) ∧
    marginGet (firstRoundVotes s4Voters) p1 = 2 ∧
    marginGet (firstRoundVotes s4Voters) p2 = 1 ∧
    marginGet (firstRoundVotes s4Voters) p3 = -1 ∧
    marginGet (firstRoundVotes s4Voters) p4 = 1 ∧
    marginGet (firstRoundVotes s4Voters) p5 = 0 ∧
    marginGet (firstRoundVotes s4Voters) p6 = -2 := by
  constructor
  · intro voters q hnd
    rw [firstRoundVotes, marginGet_firstRound_fold voters [] q hnd]
    simp [marginGet]
  · refine ⟨by decide, by decide, by decide, by decide, by decide, by decide⟩

/-- C3 witness: the general margin formula applied to the S4 voters at the
proposal 0x1. -/
theorem firstRound_margin_is_signed_weighted_sum_witness :
    (∀ wv ∈ s4Voters, wv.2.valid.Nodup ∧ wv.2.invalid.Nodup) ∧
    marginGet (firstRoundVotes s4Voters) p1 =
      (s4Voters.map (fun wv =>
        (if p1 ∈ wv.2.valid then wv.1 else 0)
          - (if p1 ∈ wv.2.invalid then wv.1 else 0))).sum :=
  ⟨by decide, firstRound_margin_is_signed_weighted_sum.1 s4Voters p1 (by decide)⟩

/-- Helper: a key of a map with duplicate-free keys determines its value. -/
theorem marginKey_value_unique {l : VotesMargin} {a : Proposal} {b c : Int}
    (hnd : (l.map Prod.fst).Nodup) (h1 : (a, b) ∈ l) (h2 : (a, c) ∈ l) : b = c := by
  induction l with
  | nil => cases h1
  | cons x rest ih =>
    rw [List.map_cons, List.nodup_cons] at hnd
    rcases List.mem_cons.mp h1 with h1 | h1 <;> rcases List.mem_cons.mp h2 with h2 | h2
    · rw [← h2] at h1
      exact congrArg Prod.snd h1
    · exfalso
      apply hnd.1
      rw [← h1]
      exact List.mem_map.mpr ⟨(a, c), h2, rfl⟩
    · exfalso
      apply hnd.1
      rw [← h2]
      exact List.mem_map.mpr ⟨(a, b), h1, rfl⟩
    · exact ih hnd.2 h1 h2

/-- Helper: membership in the vote sets accumulated by the adoption fold. -/
theorem mem_calcOwn_fold (T : Int) (coin : Bool) (l : VotesMargin)
    (acc : VotesSetPair) (x : Proposal) :
    (x ∈ (l.foldl
        (fun acc pm =>
          if T < pm.2 then ⟨insert pm.1 acc.ValidVotes, acc.InvalidVotes⟩
          else if pm.2 < -T then ⟨acc.ValidVotes, insert pm.1 acc.InvalidVotes⟩
          else if coin then ⟨insert pm.1 acc.ValidVotes, acc.InvalidVotes⟩
          else ⟨acc.ValidVotes, insert pm.1 acc.InvalidVotes⟩)
        acc).ValidVotes ↔
      x ∈ acc.ValidVotes ∨
      ∃ v, (x, v) ∈ l ∧ (T < v ∨ (¬ T < v ∧ ¬ v < -T ∧ coin = true))) ∧
    (x ∈ (l.foldl
        (fun acc pm =>
          if T < pm.2 then ⟨insert pm.1 acc.ValidVotes, acc.InvalidVotes⟩
          else if pm.2 < -T then ⟨acc.ValidVotes, insert pm.1 acc.InvalidVotes⟩
          else if coin then ⟨insert pm.1 acc.ValidVotes, acc.InvalidVotes⟩
          else ⟨acc.ValidVotes, insert pm.1 acc.InvalidVotes⟩)
        acc).InvalidVotes ↔
      x ∈ acc.InvalidVotes ∨
      ∃ v, (x, v) ∈ l ∧ ¬ T < v ∧ (v < -T ∨ (¬ v < -T ∧ coin = false))) := by
  induction l generalizing acc with
  | nil => simp
  | cons pm rest ih =>
    obtain ⟨p, m⟩ := pm
    rw [List.foldl_cons]
    by_cases h1 : T < m
    · rw [if_pos h1]
      rcases ih ⟨insert p acc.ValidVotes, acc.InvalidVotes⟩ with ⟨ihv, ihi⟩
      constructor
      · rw [ihv]
        simp only [Finset.mem_insert, List.mem_cons, Prod.mk.injEq]
        constructor
        · rintro ((rfl | hmem) | ⟨v, hv, hc⟩)
          · exact Or.inr ⟨m, Or.inl ⟨rfl, rfl⟩, Or.inl h1⟩
          · exact Or.inl hmem
          · exact Or.inr ⟨v, Or.inr hv, hc⟩
        · rintro (hmem | ⟨v, (⟨rfl, rfl⟩ | hv), hc⟩)
          · exact Or.inl (Or.inr hmem)
          · exact Or.inl (Or.inl rfl)
          · exact Or.inr ⟨v, hv, hc⟩
      · rw [ihi]
        simp only [List.mem_cons, Prod.mk.injEq]
        constructor
        · rintro (hmem | ⟨v, hv, hc⟩)
          · exact Or.inl hmem
          · exact Or.inr ⟨v, Or.inr hv, hc⟩
        · rintro (hmem | ⟨v, (⟨rfl, rfl⟩ | hv), hc⟩)
          · exact Or.inl hmem
          · exact absurd h1 hc.1
          · exact Or.inr ⟨v, hv, hc⟩
    · by_cases h2 : m < -T
      · rw [if_neg h1, if_pos h2]
        rcases ih ⟨acc.ValidVotes, insert p acc.InvalidVotes⟩ with ⟨ihv, ihi⟩
        constructor
        · rw [ihv]
          simp only [List.mem_cons, Prod.mk.injEq]
          constructor
          · rintro (hmem | ⟨v, hv, hc⟩)
            · exact Or.inl hmem
            · exact Or.inr ⟨v, Or.inr hv, hc⟩
          · rintro (hmem | ⟨v, (⟨rfl, rfl⟩ | hv), hc⟩)
            · exact Or.inl hmem
            · rcases hc with hc | hc
              · exact absurd hc h1
              · exact absurd h2 hc.2.1
            · exact Or.inr ⟨v, hv, hc⟩
        · rw [ihi]
          simp only [Finset.mem_insert, List.mem_cons, Prod.mk.injEq]
          constructor
          · rintro ((rfl | hmem) | ⟨v, hv, hc⟩)
            · exact Or.inr ⟨m, Or.inl ⟨rfl, rfl⟩, h1, Or.inl h2⟩
            · exact Or.inl hmem
            · exact Or.inr ⟨v, Or.inr hv, hc⟩
          · rintro (hmem | ⟨v, (⟨rfl, rfl⟩ | hv), hc⟩)
            · exact Or.inl (Or.inr hmem)
            · exact Or.inl (Or.inl rfl)
            · exact Or.inr ⟨v, hv, hc⟩
      · by_cases hc : coin
        · rw [if_neg h1, if_neg h2, if_pos hc]
          rcases ih ⟨insert p acc.ValidVotes, acc.InvalidVotes⟩ with ⟨ihv, ihi⟩
          constructor
          · rw [ihv]
            simp only [Finset.mem_insert, List.mem_cons, Prod.mk.injEq]
            constructor
            · rintro ((rfl | hmem) | ⟨v, hv, hcc⟩)
              · exact Or.inr ⟨m, Or.inl ⟨rfl, rfl⟩, Or.inr ⟨h1, h2, hc⟩⟩
              · exact Or.inl hmem
              · exact Or.inr ⟨v, Or.inr hv, hcc⟩
            · rintro (hmem | ⟨v, (⟨rfl, rfl⟩ | hv), hcc⟩)
              · exact Or.inl (Or.inr hmem)
              · exact Or.inl (Or.inl rfl)
              · exact Or.inr ⟨v, hv, hcc⟩
          · rw [ihi]
            simp only [List.mem_cons, Prod.mk.injEq]
            constructor
            · rintro (hmem | ⟨v, hv, hcc⟩)
              · exact Or.inl hmem
              · exact Or.inr ⟨v, Or.inr hv, hcc⟩
            · rintro (hmem | ⟨v, (⟨rfl, rfl⟩ | hv), hcc⟩)
              · exact Or.inl hmem
              · rcases hcc.2 with h | h
                · exact absurd h h2
                · rw [hc] at h
                  exact absurd h.2 (by simp)
              · exact Or.inr ⟨v, hv, hcc⟩
        · rw [if_neg h1, if_neg h2, if_neg hc]
          rcases ih ⟨acc.ValidVotes, insert p acc.InvalidVotes⟩ with ⟨ihv, ihi⟩
          have hcf : coin = false := by simpa using hc
          constructor
          · rw [ihv]
            simp only [List.mem_cons, Prod.mk.injEq]
            constructor
            · rintro (hmem | ⟨v, hv, hcc⟩)
              · exact Or.inl hmem
              · exact Or.inr ⟨v, Or.inr hv, hcc⟩
            · rintro (hmem | ⟨v, (⟨rfl, rfl⟩ | hv), hcc⟩)
              · exact Or.inl hmem
              · rcases hcc with h | h
                · exact absurd h h1
                · rw [hcf] at h
                  exact absurd h.2.2 (by simp)
              · exact Or.inr ⟨v, hv, hcc⟩
          · rw [ihi]
            simp only [Finset.mem_insert, List.mem_cons, Prod.mk.injEq]
            constructor
            · rintro ((rfl | hmem) | ⟨v, hv, hcc⟩)
              · exact Or.inr ⟨m, Or.inl ⟨rfl, rfl⟩, h1, Or.inr ⟨h2, hcf⟩⟩
              · exact Or.inl hmem
              · exact Or.inr ⟨v, Or.inr hv, hcc⟩
            · rintro (hmem | ⟨v, (⟨rfl, rfl⟩ | hv), hcc⟩)
              · exact Or.inl (Or.inr hmem)
              · exact Or.inl (Or.inl rfl)
              · exact Or.inr ⟨v, hv, hcc⟩

/-- C4: the own next-round votes computed from a margin map place each
proposal with margin strictly beyond the voting threshold in absolute value
into the own valid votes when the margin is positive and into the own
invalid votes when it is negative; every remaining proposal — margin zero
included — follows the weak coin: own valid when the coin is true, own
invalid when it is false. -/
theorem own_votes_adoption_rule
    (T : Int) (coin : Bool) (margin : VotesMargin) (p : Proposal) (m : Int)
    (hT : 0 ≤ T) (hnd : (margin.map Prod.fst).Nodup) (hmem : (p, m) ∈ margin) :
    (p ∈ (calcOwnCurrentRoundVotes T coin margin).ValidVotes ↔
      (T < |m| ∧ 0 < m) ∨ (|m| ≤ T ∧ coin = true)) ∧
    (p ∈ (calcOwnCurrentRoundVotes T coin margin).InvalidVotes ↔
      (T < |m| ∧ m < 0) ∨ (|m| ≤ T ∧ coin = false)) := by
  rcases mem_calcOwn_fold T coin margin ⟨∅, ∅⟩ p with ⟨hv, hi⟩
  rw [calcOwnCurrentRoundVotes, hv, hi]
  have habs : |m| = if 0 ≤ m then m else -m := by
    rcases le_or_lt 0 m with h | h
    · rw [abs_of_nonneg h, if_pos h]
    · rw [abs_of_neg h, if_neg (not_le.mpr h)]
  constructor
  · simp only [Finset.not_mem_empty, false_or]
    constructor
    · rintro ⟨v, hvm, hcond⟩
      have hveq : v = m := marginKey_value_unique hnd hvm hmem
      subst hveq
      rcases hcond with h | ⟨h1, h2, h3⟩
      · rw [habs]
        exact Or.inl ⟨by split_ifs <;> omega, by omega⟩
      · rw [habs]
        exact Or.inr ⟨by split_ifs <;> omega, h3⟩
    · rw [habs]
      rintro (⟨h1, h2⟩ | ⟨h1, h2⟩)
      · exact ⟨m, hmem, Or.inl (by split_ifs at h1 <;> omega)⟩
      · split_ifs at h1 with hs
        · by_cases hTm : T < m
          · exact ⟨m, hmem, Or.inl hTm⟩
          · exact ⟨m, hmem, Or.inr ⟨hTm, by omega, h2⟩⟩
        · exact ⟨m, hmem, Or.inr ⟨by omega, by omega, h2⟩⟩
  · simp only [Finset.not_mem_empty, false_or]
    constructor
    · rintro ⟨v, hvm, h1, hcond⟩
      have hveq : v = m := marginKey_value_unique hnd hvm hmem
      subst hveq
      rcases hcond with h | ⟨h2, h3⟩
      · rw [habs]
        exact Or.inl ⟨by split_ifs <;> omega, by omega⟩
      · rw [habs]
        exact Or.inr ⟨by split_ifs <;> omega, h3⟩
    · rw [habs]
      rintro (⟨h1, h2⟩ | ⟨h1, h2⟩)
      · exact ⟨m, hmem, by omega, Or.inl (by split_ifs at h1 <;> omega)⟩
      · split_ifs at h1 with hs
        · exact ⟨m, hmem, by omega, Or.inr ⟨by omega, h2⟩⟩
        · by_cases hTm : m < -T
          · exact ⟨m, hmem, by omega, Or.inl hTm⟩
          · exact ⟨m, hmem, by omega, Or.inr ⟨hTm, h2⟩⟩

/-- C4 witness: threshold 3, coin false, margin map 0x1: 6, 0x2: -9, 0x3: 1;
at 0x3 (undecided, margin 1) the proposal follows the false coin into the
own invalid votes. -/
theorem own_votes_adoption_rule_witness :
    ((0 : Int) ≤ 3 ∧
      (([(p1, 6), (p2, -9), (p3, 1)] : VotesMargin).map Prod.fst).Nodup ∧
      (p3, (1 : Int)) ∈ ([(p1, 6), (p2, -9), (p3, 1)] : VotesMargin)) ∧
    (p3 ∈ (calcOwnCurrentRoundVotes 3 false [(p1, 6), (p2, -9), (p3, 1)]).InvalidVotes ↔
      ((3 : Int) < |(1 : Int)| ∧ (1 : Int) < 0) ∨ (|(1 : Int)| ≤ 3 ∧ false = false)) :=
  ⟨⟨by decide, by decide, by decide⟩,
   (own_votes_adoption_rule 3 false [(p1, 6), (p2, -9), (p3, 1)] p3 1
      (by decide) (by decide) (by decide)).2⟩

/-- Helper: bit k of a packed word is the k-th bit of the list. -/
theorem testBit_wordOfBits (bits : List Bool) (k : Nat) :
    Nat.testBit (wordOfBits bits) k = bits.getD k false := by
  induction bits generalizing k with
  | nil => simp [wordOfBits]
  | cons b rest ih =>
    have hw : wordOfBits (b :: rest) = (if b then 1 else 0) + 2 * wordOfBits rest := rfl
    cases k with
    | zero =>
      rw [hw, Nat.testBit_zero]
      cases b <;> simp
    | succ k =>
      rw [hw, Nat.testBit_succ]
      have hdiv : ((if b then 1 else 0) + 2 * wordOfBits rest) / 2 = wordOfBits rest := by
        cases b <;> simp <;> omega
      rw [hdiv, ih]
      simp

/-- Helper: bit i of the packed bit-vector is the i-th bit of the list. -/
theorem bitAt_packBitsAux (fuel : Nat) (bits : List Bool) (i : Nat)
    (hf : bits.length ≤ fuel) :
    bitAt (packBitsAux fuel bits) i = bits.getD i false := by
  induction fuel generalizing bits i with
  | zero =>
    have hb : bits = [] := List.eq_nil_of_length_eq_zero (Nat.le_zero.mp hf)
    subst hb
    simp [packBitsAux, bitAt]
  | succ f ih =>
    cases bits with
    | nil => simp [packBitsAux, bitAt]
    | cons b rest =>
      have hrw : packBitsAux (f + 1) (b :: rest)
          = wordOfBits ((b :: rest).take 64) :: packBitsAux f ((b :: rest).drop 64) := rfl
      rw [hrw]
      by_cases hi : i < 64
      · have hdiv : i / 64 = 0 := Nat.div_eq_of_lt hi
        have hmod : i % 64 = i := Nat.mod_eq_of_lt hi
        rw [bitAt, hdiv, hmod]
        have hgd : (wordOfBits ((b :: rest).take 64) :: packBitsAux f ((b :: rest).drop 64)).getD 0 0
            = wordOfBits ((b :: rest).take 64) := rfl
        rw [hgd, testBit_wordOfBits]
        rw [List.getD_eq_getElem?_getD, List.getD_eq_getElem?_getD, List.getElem?_take]
        rw [if_pos hi]
      · have h64 : 64 ≤ i := Nat.le_of_not_lt hi
        have hstep : bitAt (wordOfBits ((b :: rest).take 64)
            :: packBitsAux f ((b :: rest).drop 64)) i
            = bitAt (packBitsAux f ((b :: rest).drop 64)) (i - 64) := by
          rw [bitAt, bitAt]
          have hd1 : i / 64 = (i - 64) / 64 + 1 := by omega
          have hd2 : i % 64 = (i - 64) % 64 := by omega
          rw [hd1, hd2]
          rfl
        rw [hstep, ih _ _ (by rw [List.length_drop]; simp at hf ⊢; omega)]
        rw [List.getD_eq_getElem?_getD, List.getD_eq_getElem?_getD, List.getElem?_drop]
        have : 64 + (i - 64) = i := by omega
        rw [this]

/-- Helper: the i-th encoded bit tests membership of the i-th proposal. -/
theorem getD_map_decide_mem (L : List Proposal) (s : Finset Proposal) (j : Nat)
    (h : j < L.length) :
    (L.map (fun p => decide (p ∈ s))).getD j false = decide (L.getD j [] ∈ s) := by
  rw [List.getD_eq_getElem?_getD, List.getD_eq_getElem?_getD, List.getElem?_map,
    List.getElem?_eq_getElem h]
  simp

/-- Helper: decoding against a bit-vector that describes membership in a set
classifies the list into the members and the non-members of that set. -/
theorem classifyVotes_filter (bv : List Nat) (s : Finset Proposal)
    (M : List Proposal) (i : Nat)
    (hbits : ∀ j, j < M.length → bitAt bv (i + j) = decide (M.getD j [] ∈ s)) :
    classifyVotes bv M i =
      ⟨(M.filter (fun p => decide (p ∈ s))).toFinset,
       (M.filter (fun p => decide (p ∉ s))).toFinset⟩ := by
  induction M generalizing i with
  | nil => simp [classifyVotes]
  | cons p rest ih =>
    have hhead : bitAt bv i = decide (p ∈ s) := by
      have := hbits 0 (by simp)
      simpa using this
    have htail : ∀ j, j < rest.length → bitAt bv (i + 1 + j) = decide (rest.getD j [] ∈ s) := by
      intro j hj
      have := hbits (j + 1) (by simp; omega)
      rw [show i + (j + 1) = i + 1 + j by omega] at this
      simpa using this
    have hrw : classifyVotes bv (p :: rest) i =
        (if bitAt bv i then
          ⟨insert p (classifyVotes bv rest (i + 1)).ValidVotes,
           (classifyVotes bv rest (i + 1)).InvalidVotes⟩
        else
          ⟨(classifyVotes bv rest (i + 1)).ValidVotes,
           insert p (classifyVotes bv rest (i + 1)).InvalidVotes⟩ : VotesSetPair) := rfl
    rw [hrw, ih (i + 1) htail, hhead]
    by_cases hp : p ∈ s
    · rw [if_pos (by simpa using hp)]
      simp [List.filter_cons, hp]
    · rw [if_neg (by simpa using hp)]
      simp [List.filter_cons, hp]

/-- C2, the claim as stated is false: with the first-round list holding the
single proposal 0x1 and the empty vote set pair — all of whose proposals are
trivially in the list — encoding and then decoding does not return the
original pair: the uncovered proposal decodes into the invalid votes. -/
theorem decode_encode_not_inverse_on_noncovering :
    (∀ q ∈ (∅ : Finset Proposal) ∪ (∅ : Finset Proposal), q ∈ firstRoundList ⟨[p1], []⟩) ∧
    decodeVotes (encodeVotes ⟨∅, ∅⟩ ⟨[p1], []⟩) ⟨[p1], []⟩ ≠ (⟨∅, ∅⟩ : VotesSetPair) := by
  constructor
  · intro q hq
    simp at hq
  · decide

/-- C2 (amended): decoding inverts encoding for every vote set pair whose
valid and invalid sets are disjoint and together cover exactly the proposals
of the first-round list pair (a pair merely contained in the list decodes
with its uncovered proposals forced into the invalid votes). -/
theorem decode_encode_roundtrip_on_partition
    (v : VotesSetPair) (fr : ProposalsPair)
    (hcover : v.ValidVotes ∪ v.InvalidVotes = (firstRoundList fr).toFinset)
    (hdisj : Disjoint v.ValidVotes v.InvalidVotes) :
    decodeVotes (encodeVotes v fr) fr = v := by
  rw [decodeVotes, encodeVotes, packBits]
  rw [classifyVotes_filter _ v.ValidVotes (firstRoundList fr) 0 ?hbits]
  case hbits =>
    intro j hj
    rw [Nat.zero_add, bitAt_packBitsAux _ _ _ (by simp)]
    exact getD_map_decide_mem _ _ _ hj
  have hvalid : ((firstRoundList fr).filter (fun p => decide (p ∈ v.ValidVotes))).toFinset
      = v.ValidVotes := by
    ext x
    simp only [List.mem_toFinset, List.mem_filter, decide_eq_true_eq]
    constructor
    · rintro ⟨_, hxv⟩
      exact hxv
    · intro hxv
      refine ⟨?_, hxv⟩
      have hxu : x ∈ v.ValidVotes ∪ v.InvalidVotes := Finset.mem_union_left _ hxv
      rw [hcover] at hxu
      exact List.mem_toFinset.mp hxu
  have hinvalid : ((firstRoundList fr).filter (fun p => decide (p ∉ v.ValidVotes))).toFinset
      = v.InvalidVotes := by
    ext x
    simp only [List.mem_toFinset, List.mem_filter, decide_eq_true_eq]
    constructor
    · rintro ⟨hxL, hxnv⟩
      have hxu : x ∈ v.ValidVotes ∪ v.InvalidVotes := by
        rw [hcover]
        exact List.mem_toFinset.mpr hxL
      rcases Finset.mem_union.mp hxu with h | h
      · exact absurd h hxnv
      · exact h
    · intro hxi
      have hxnv : x ∉ v.ValidVotes := fun hxv =>
        (Finset.disjoint_left.mp hdisj) hxv hxi
      refine ⟨?_, hxnv⟩
      have hxu : x ∈ v.ValidVotes ∪ v.InvalidVotes := Finset.mem_union_right _ hxi
      rw [hcover] at hxu
      exact List.mem_toFinset.mp hxu
  obtain ⟨va, iv⟩ := v
  simp only at hvalid hinvalid
  rw [hvalid, hinvalid]

/-- C2 witness: the S3 scenario — first-round list [0x1, 0x2, 0x3], valid
votes 0x1 and 0x3, invalid vote 0x2 — round-trips, and the encoded
bit-vector is the single word 0b101. -/
theorem decode_encode_roundtrip_on_partition_witness :
    (({p1, p3} : Finset Proposal) ∪ {p2} = (firstRoundList ⟨[p1, p2], [p3]⟩).toFinset ∧
      Disjoint ({p1, p3} : Finset Proposal) ({p2} : Finset Proposal)) ∧
    decodeVotes (encodeVotes ⟨{p1, p3}, {p2}⟩ ⟨[p1, p2], [p3]⟩) ⟨[p1, p2], [p3]⟩
      = (⟨{p1, p3}, {p2}⟩ : VotesSetPair) ∧
    encodeVotes ⟨{p1, p3}, {p2}⟩ ⟨[p1, p2], [p3]⟩ = [5] :=
  ⟨⟨by decide, by decide⟩,
   decode_encode_roundtrip_on_partition ⟨{p1, p3}, {p2}⟩ ⟨[p1, p2], [p3]⟩
     (by decide) (by decide),
   by decide⟩

set_option maxRecDepth 100000 in
/-- C1: whenever own votes for the last round of an epoch are stored, the
beacon hash list is exactly the proposals of the own `ValidVotes`, sorted
ascending in the lexicographic order of the identifiers (a sorted
permutation of the set elements), and `calcBeacon` records for the epoch the
32-byte digest of that sorted list; in particular the digest of the S1 list
[0x1, 0x2, 0x4, 0x5] is the expected beacon
0xd04dd0faf9b5d3baf04dd99152971b5db67b0b3c79e5cc59f8f7b03ab20673f8, and
sorting arranges those identifiers ascending. -/
theorem beacon_from_own_lastRound_validVotes :
    (∀ (ownVotes : Nat × Nat → Option VotesSetPair) (beacons : Nat → Option Hash32)
      (epoch roundsNumber : Nat) (vs : VotesSetPair),
      ownVotes (epoch, roundsNumber) = some vs →
      ∃ l, calcTortoiseBeaconHashList ownVotes epoch roundsNumber = some l ∧
        List.Sorted (· ≤ ·) l ∧ l.Perm vs.ValidVotes.toList ∧
        calcBeacon ownVotes beacons epoch roundsNumber
          = some (fun e => if e = epoch then some (proposalListHash l) else beacons e)) ∧
    proposalListHash [p1, p2, p4, p5] = s1Beacon ∧
    List.insertionSort (· ≤ ·) [p2, p4, p1, p5] = [p1, p2, p4, p5] := by
  refine ⟨?_, ?_, ?_⟩
  · intro ownVotes beacons epoch roundsNumber vs h
    refine ⟨vs.ValidVotes.sort (· ≤ ·), ?_, ?_, ?_, ?_⟩
    · rw [calcTortoiseBeaconHashList, h]
    · exact Finset.sort_sorted _ _
    · exact Finset.sort_perm_toList _ _
    · rw [calcBeacon, calcTortoiseBeaconHashList, h]
  · decide
  · decide

/-- C1 witness: the S1 own votes at epoch 5 with three rounds produce the
sorted hash list and record its digest as the beacon of epoch 5. -/
theorem beacon_from_own_lastRound_validVotes_witness :
    s1OwnVotes (5, 3) = some ⟨{p1, p2, p4, p5}, {p3, p6}⟩ ∧
    ∃ l, calcTortoiseBeaconHashList s1OwnVotes 5 3 = some l ∧
      List.Sorted (· ≤ ·) l ∧
      l.Perm (VotesSetPair.mk {p1, p2, p4, p5} {p3, p6}).ValidVotes.toList ∧
      calcBeacon s1OwnVotes (fun _ => none) 5 3
        = some (fun e => if e = 5 then some (proposalListHash l) else (fun _ => none) e) :=
  ⟨by decide,
   beacon_from_own_lastRound_validVotes.1 s1OwnVotes (fun _ => none) 5 3
     ⟨{p1, p2, p4, p5}, {p3, p6}⟩ (by decide)⟩

/-- C10, the claim as stated is false: with `currentEpoch = 0`, the stored
epoch `2 ^ 64 - 1000` is strictly greater than the current epoch yet is not
classified as outdated, because the wrapped difference `0 - (2 ^ 64 - 1000)`
equals exactly `1000`, which is not `> cleanupEpochs`. -/
theorem epochIsOutdated_misses_wraparound_boundary :
    0 < 2 ^ 64 - 1000 ∧ epochIsOutdated 0 (2 ^ 64 - 1000) = false := by
  constructor
  · decide
  · decide

/-- C10 (amended): over the `uint64` subtraction `currentEpoch - epoch`,
an epoch is outdated exactly when it is more than `cleanupEpochs` behind the
current epoch, or strictly ahead of it by less than `2 ^ 64 - cleanupEpochs`
(so beacons ahead of the current epoch are deleted except in the extreme
wrap-around band of the last `cleanupEpochs` values below `2 ^ 64`); the
cleanup task deletes exactly the outdated entries. -/
theorem epochIsOutdated_unsigned_wraparound
    (current epoch : Nat) (hc : current < U64) (he : epoch < U64) :
    (epochIsOutdated current epoch = true ↔
      (epoch ≤ current ∧ cleanupEpochs < current - epoch) ∨
      (current < epoch ∧ epoch - current < U64 - cleanupEpochs)) ∧
    ∀ (beacons : List (Nat × Hash32)) (e : Nat) (h : Hash32),
      ((e, h) ∈ cleanup beacons current ↔
        (e, h) ∈ beacons ∧ epochIsOutdated current e = false) := by
  constructor
  · rw [epochIsOutdated, sub64, decide_eq_true_eq]
    rw [U64] at *
    rcases le_or_lt epoch current with hle | hlt
    · have hrw : (current + 2 ^ 64 - epoch) % 2 ^ 64 = current - epoch := by
        omega
      rw [hrw]
      omega
    · have hrw : (current + 2 ^ 64 - epoch) % 2 ^ 64 = 2 ^ 64 - (epoch - current) := by
        omega
      rw [hrw]
      omega
  · intro beacons e h
    simp [cleanup, List.mem_filter]

/-- C10 witness: a concrete instantiation of the amended characterization,
showing an epoch just one ahead of the current epoch is already outdated. -/
theorem epochIsOutdated_unsigned_wraparound_witness :
    5 < U64 ∧ 6 < U64 ∧
    (epochIsOutdated 5 6 = true ↔
      (6 ≤ 5 ∧ cleanupEpochs < 5 - 6) ∨ (5 < 6 ∧ 6 - 5 < U64 - cleanupEpochs)) :=
  ⟨by decide, by decide,
    (epochIsOutdated_unsigned_wraparound 5 6 (by decide) (by decide)).1⟩


/-- C7: the old `GetBeacon` of `tortoisebeacon.go` never awaits beacon
readiness and never reports a timeout; on the failing input (epoch 5 whose
beacon never became ready) it immediately returns the 32-byte mock value
whose first byte is the epoch id, and it returns such a 32-byte value for
every epoch. -/
theorem getBeaconOld_returns_mock_immediately :
    getBeaconOldMock 5 = 5 :: List.replicate 31 0 ∧
    (getBeaconOldMock 5).length = 32 ∧
    beaconCalcTimeout 3 10 = 120 := by
  refine ⟨by decide, by decide, by decide⟩

/-- C5, the claim as stated is false: epoch 0 is a genesis epoch, yet
`GetBeacon 0` does not take the immediate genesis return — the fast path
tests `(epochID - 1).IsGenesis()`, and `0 - 1` wraps to `2 ^ 64 - 1`, so the
call falls through to the fifty-round retry loop. -/
theorem genesis_getBeacon_epoch0_misses_fast_path :
    isGenesis 2 0 = true ∧
    (getBeacon 2 none (initGenesisBeacons 2) 0).path = GetBeaconPath.retryLoop := by
  constructor
  · decide
  · decide

/-- C5 (amended): on a database miss, `GetBeacon` returns the all-zero
32-byte beacon immediately exactly for the epochs `e` with
`(e - 1).IsGenesis()`, that is `1 ≤ e ≤ G`; epoch 0 instead falls into the
retry loop because the `uint64` subtraction wraps; `initGenesisBeacons` seeds
the all-zero beacon exactly for the genesis epochs (this code version keeps
no readiness signal to pre-mark). -/
theorem getBeacon_genesis_shifted_fast_path
    (G : Nat) (beacons : Nat → Option Hash32) (e : Nat)
    (hG : 0 < G) (hGU : G < U64) (he1 : 1 ≤ e) (heG : e ≤ G) :
    ((getBeacon G none beacons e).path = GetBeaconPath.genesisFast ∧
     (getBeacon G none beacons e).value = zeroHash32 ∧
     (getBeacon G none beacons e).error = none) ∧
    (getBeacon G none beacons 0).path = GetBeaconPath.retryLoop ∧
    (∀ x, initGenesisBeacons G x = some zeroHash32 ↔ isGenesis G x = true) := by
  have hsub : sub64 e 1 = e - 1 := by
    rw [sub64, U64] at *
    omega
  have hgen : isGenesis G (sub64 e 1) = true := by
    rw [hsub, isGenesis, decide_eq_true_eq]
    omega
  have hsub0 : sub64 0 1 = U64 - 1 := by
    rw [sub64, U64] at *
    omega
  have hgen0 : isGenesis G (sub64 0 1) = false := by
    rw [hsub0, isGenesis, decide_eq_false_iff_not]
    rw [U64] at *
    omega
  refine ⟨?_, ?_, ?_⟩
  · rw [getBeacon]
    simp [hgen]
  · rw [getBeacon]
    simp [hgen0]
  · intro x
    rw [initGenesisBeacons, isGenesis]
    by_cases hx : x < G <;> simp [hx]

/-- C5 witness: with two genesis epochs, `GetBeacon 1` takes the immediate
genesis path and returns the all-zero beacon. -/
theorem getBeacon_genesis_shifted_fast_path_witness :
    (0 < 2 ∧ 2 < U64 ∧ 1 ≤ 1 ∧ 1 ≤ 2) ∧
    (getBeacon 2 none (initGenesisBeacons 2) 1).path = GetBeaconPath.genesisFast ∧
    (getBeacon 2 none (initGenesisBeacons 2) 1).value = zeroHash32 :=
  ⟨⟨by decide, by decide, by decide, by decide⟩,
   ((getBeacon_genesis_shifted_fast_path 2 (initGenesisBeacons 2) 1
      (by decide) (by decide) (by decide) (by decide)).1).1,
   ((getBeacon_genesis_shifted_fast_path 2 (initGenesisBeacons 2) 1
      (by decide) (by decide) (by decide) (by decide)).1).2.1⟩

/-- C9: for an epoch whose database lookup misses and whose predecessor is
not a genesis epoch, `GetBeacon` reads the in-memory beacon of the previous
epoch (`epochID - 1` over `uint64`), defaults to the all-zero hash when it is
absent, returns with a nil error — never `ErrBeaconNotCalculated` — and
writes the result back into the database exactly when one is configured. -/
theorem getBeacon_prev_epoch_default_zero
    (G : Nat) (db : Option (Nat → Option Hash32)) (beacons : Nat → Option Hash32)
    (e : Nat)
    (hdb : db.bind (fun d => d e) = none)
    (hng : isGenesis G (sub64 e 1) = false) :
    (getBeacon G db beacons e).value = (beacons (sub64 e 1)).getD zeroHash32 ∧
    (getBeacon G db beacons e).error = none ∧
    (getBeacon G db beacons e).path = GetBeaconPath.retryLoop ∧
    (getBeacon G db beacons e).dbWrite =
      (if db.isSome then some (e, (beacons (sub64 e 1)).getD zeroHash32) else none) := by
  rw [getBeacon, hdb]
  simp [hng]

/-- C9 witness: epoch 5 with two genesis epochs, no database, and only the
genesis beacons in memory — the result is the default all-zero hash of the
absent entry for epoch 4, with a nil error. -/
theorem getBeacon_prev_epoch_default_zero_witness :
    (Option.bind (none : Option (Nat → Option Hash32)) (fun d => d 5) = none) ∧
    isGenesis 2 (sub64 5 1) = false ∧
    (getBeacon 2 none (initGenesisBeacons 2) 5).value =
      ((initGenesisBeacons 2) (sub64 5 1)).getD zeroHash32 ∧
    (getBeacon 2 none (initGenesisBeacons 2) 5).error = none :=
  ⟨rfl, by decide,
   (getBeacon_prev_epoch_default_zero 2 none (initGenesisBeacons 2) 5 rfl (by decide)).1,
   (getBeacon_prev_epoch_default_zero 2 none (initGenesisBeacons 2) 5 rfl (by decide)).2.1⟩

/-- C8: for a non-genesis epoch, a failing epoch-weight lookup makes
`runProposalPhase` return the wrapped error (bubbling it up), and
`handleEpoch` then aborts the epoch: the consensus phase and the beacon
calculation do not run, and the beacons registry is left unchanged, so the
epoch gets no beacon. -/
theorem weight_error_aborts_epoch
    (G epoch : Nat) (sig : List Nat) (werr : String)
    (rest : Nat → Except String Unit)
    (calcResult : Option Hash32) (beacons : Nat → Option Hash32)
    (hng : isGenesis G epoch = false) :
    runProposalPhase (.ok sig) (.error werr) rest =
      .error ("get epoch weight: " ++ werr) ∧
    (handleEpoch G epoch (.error ("get epoch weight: " ++ werr))).consensusRan = false ∧
    (handleEpoch G epoch (.error ("get epoch weight: " ++ werr))).beaconCalcRan = false ∧
    (handleEpoch G epoch (.error ("get epoch weight: " ++ werr))).proposalError =
      some ("get epoch weight: " ++ werr) ∧
    handleEpochBeacons G epoch (.error ("get epoch weight: " ++ werr)) calcResult beacons
      = beacons := by
  rw [runProposalPhase, handleEpoch, handleEpochBeacons]
  simp [hng]

/-- C8 witness: concrete non-genesis epoch 5 with a failing weight lookup. -/
theorem weight_error_aborts_epoch_witness :
    isGenesis 2 5 = false ∧
    (handleEpoch 2 5 (.error ("get epoch weight: " ++ "db failure"))).consensusRan = false ∧
    (handleEpoch 2 5 (.error ("get epoch weight: " ++ "db failure"))).beaconCalcRan = false ∧
    handleEpochBeacons 2 5 (.error ("get epoch weight: " ++ "db failure")) none
      (initGenesisBeacons 2) = initGenesisBeacons 2 :=
  ⟨by decide,
   (weight_error_aborts_epoch 2 5 [] "db failure" (fun _ => .ok ()) none
      (initGenesisBeacons 2) (by decide)).2.1,
   (weight_error_aborts_epoch 2 5 [] "db failure" (fun _ => .ok ()) none
      (initGenesisBeacons 2) (by decide)).2.2.1,
   (weight_error_aborts_epoch 2 5 [] "db failure" (fun _ => .ok ()) none
      (initGenesisBeacons 2) (by decide)).2.2.2.2⟩

end TortoiseBeacon
